import Mathlib

/-!
Shallow embedding of `src/ranges.js` from the Aloha-Editor repository.

DOM nodes are identified by natural-number ids, so that JavaScript
reference identity (`===`) on nodes becomes equality of ids.  Host
browser facilities (hit-testing primitives, rendered client rectangles,
the DOM query helpers of the `dom` module) are passed in explicitly as
fields of a `Doc` value: every operation of the module is a function of
its arguments and of that explicit document value only.
-/

namespace Ranges

/-- A rendered client rectangle, as consumed by `pointIsInOrAboveRect`
(only the `bottom`, `left` and `right` edges are read by the code). -/
structure Rect where
  left   : Int
  right  : Int
  bottom : Int
  deriving DecidableEq, Repr

/-- A DOM range: a pair of boundary points.  Containers are node ids,
offsets are integers (the IE fallback can produce a `-1` offset, so the
type is `Int`, not `Nat`). -/
structure Range where
  startContainer : Nat
  startOffset    : Int
  endContainer   : Nat
  endOffset      : Int
  deriving DecidableEq, Repr

/-- The ephemeral `{node, index}` pair used while probing rectangles. -/
structure Position where
  node  : Nat
  index : Int
  deriving DecidableEq, Repr

/-- JavaScript `v || 0` on an optionally-present integer argument: an
absent argument gives `0`; a present integer `v` gives `v` (for an
integer, `v || 0` is `v` when `v ≠ 0` and `0 = v` when `v = 0`). -/
def jsOr0 (v : Option Int) : Int :=
  v.getD 0

/-- `create(sc, so, ec, eo)` from `ranges.js` lines 24-33: build a range
starting at `(sc, so || 0)`; when `ec` is absent the end is set to the
start boundary, otherwise to `(ec, eo || 0)`. -/
def create (sc : Nat) (so : Option Int) (ec : Option Nat) (eo : Option Int) : Range :=
  match ec with
  | some ec => { startContainer := sc, startOffset := jsOr0 so
                 endContainer := ec, endOffset := jsOr0 eo }
  | none    => { startContainer := sc, startOffset := jsOr0 so
                 endContainer := sc, endOffset := jsOr0 so }

/-- `equals(a, b)` from `ranges.js` lines 215-220: strict equality of the
four boundary fields. -/
def equals (a b : Range) : Bool :=
  decide (a.startContainer = b.startContainer)
    && decide (a.startOffset = b.startOffset)
    && decide (a.endContainer = b.endContainer)
    && decide (a.endOffset = b.endOffset)

/-- `pointIsInOrAboveRect(x, y, rect)` from `ranges.js` lines 82-84:
`y < rect.bottom && x >= rect.left && x <= rect.right`. -/
def pointIsInOrAboveRect (x y : Int) (rect : Rect) : Bool :=
  decide (y < rect.bottom) && decide (rect.left ≤ x) && decide (x ≤ rect.right)

/-- The end boundary of the probe range during the fallback scan: either
inside a text node at a character offset (`range.setEnd(node, offset)`)
or just after a node (`range.setEndAfter(node)`).  The probe range's
start boundary is fixed for the whole scan (`selectNodeContents` then
`collapse(true)` in `fromPointIE`), so the rendered rectangle is a
function of the end boundary alone. -/
inductive EndBoundary where
  | inText    (nodeId : Nat) (offset : Nat)
  | afterNode (nodeId : Nat)
  deriving DecidableEq, Repr

/-- The host layout: `Arrays.last(range.getClientRects())` for the probe
range with the given end boundary — `none` when the rectangle list is
empty. -/
abbrev Layout : Type :=
  EndBoundary → Option Rect

/-- `stepTextNode(node, range, offset, x, y)` from `ranges.js` lines
86-105.  `rects o` is the last client rectangle of the probe range after
`range.setEnd(node, o)`.  When the rectangle exists and the point is in
or above it, the offset is kept, decremented by one when the point is
strictly closer to the rectangle's left edge; otherwise the scan recurses
with `offset + 1` while `offset < node.length`, and returns the final
offset when the text node is exhausted. -/
def stepTextNode (nodeId len : Nat) (rects : Nat → Option Rect)
    (offset : Nat) (x y : Int) : Position :=
  match rects offset with
  | some rect =>
    if pointIsInOrAboveRect x y rect then
      { node := nodeId
        index := if rect.right - x > x - rect.left then (offset : Int) - 1 else (offset : Int) }
    else if h : offset < len then
      stepTextNode nodeId len rects (offset + 1) x y
    else
      { node := nodeId, index := (offset : Int) }
  | none =>
    if h : offset < len then
      stepTextNode nodeId len rects (offset + 1) x y
    else
      { node := nodeId, index := (offset : Int) }
termination_by len - offset

/-- A sibling in the scanned child chain: its node id and, when it is a
text node (`Dom.isTextNode`), its character length (`node.length`). -/
structure NodeDesc where
  id   : Nat
  text : Option Nat
  deriving DecidableEq, Repr

/-- Whether the probe rectangle obtained by `range.setEndAfter(node)`
matches the point (the element branch of `findOffset`). -/
def afterMatches (layout : Layout) (x y : Int) (n : NodeDesc) : Bool :=
  match layout (.afterNode n.id) with
  | some rect => pointIsInOrAboveRect x y rect
  | none      => false

/-- `findOffset(node, range, x, y)` from `ranges.js` lines 107-129.
`parent` is the common parent of the sibling chain (`node.parentNode`),
`idx` is `Dom.nodeIndex(node)` of the head of the chain, and `rest` is
the chain of following siblings (`nextSibling` links).  A text node is
delegated to `stepTextNode` starting at offset `0`; for an element the
probe range's end is set after it and on a rectangle match the position
`(parent, idx)` is returned, otherwise the scan moves to the next
sibling, falling back to `(parent, idx)` of the last sibling. -/
def findOffset (parent : Nat) (layout : Layout) (node : NodeDesc)
    (rest : List NodeDesc) (idx : Nat) (x y : Int) : Position :=
  match node.text with
  | some len =>
    stepTextNode node.id len (fun o => layout (.inText node.id o)) 0 x y
  | none =>
    if afterMatches layout x y node then
      { node := parent, index := (idx : Int) }
    else
      match rest with
      | next :: rest => findOffset parent layout next rest (idx + 1) x y
      | [] => { node := parent, index := (idx : Int) }

/-- The element returned by `document.elementFromPoint`: its id, its
parent's id, its index in its parent (`Dom.nodeIndex(el)`), and its
children (`el.firstChild` and the following siblings). -/
structure ElementInfo where
  id       : Nat
  parent   : Nat
  index    : Nat
  children : List NodeDesc
  deriving Repr

/-- `fromPointIE(x, y, doc)` from `ranges.js` lines 134-154, applied to
the element the host hit-test returned.  With no first child the
position is `(el.parentNode, Dom.nodeIndex(el))`; otherwise `findOffset`
scans the children.  Either way the result range is built by `create`
with no end arguments. -/
def fromPointIE (x y : Int) (el : ElementInfo) (layout : Layout) : Range :=
  match el.children with
  | [] =>
    create el.parent (some (el.index : Int)) none none
  | c :: rest =>
    let offset := findOffset el.id layout c rest 0 x y
    create offset.node (some offset.index) none none

/-- The `{offsetNode, offset}` value of `document.caretPositionFromPoint`. -/
structure CaretPosition where
  offsetNode : Nat
  offset     : Int
  deriving Repr

/-- The message thrown by `fromPoint` when no hit-testing primitive is
available (`ranges.js` line 69). -/
def unimplementedMsg : String :=
  "fromPoint() unimplemented for this browser"

/-- The document state and host API surface consumed by the module: the
three optional hit-testing primitives, the rendered layout, and the
`dom`-module helpers used by `parentBlock` and `fromPosition`.  Fixing a
`Doc` fixes the document state and layout. -/
structure Doc where
  caretRangeFromPoint    : Option (Int → Int → Option Range)
  caretPositionFromPoint : Option (Int → Int → CaretPosition)
  elementFromPoint       : Option (Int → Int → ElementInfo)
  layout                 : Layout
  commonAncestorContainer : Range → Nat
  isEditableNode         : Nat → Bool
  isEditable             : Nat → Bool
  editingHost            : Nat → Nat
  parentOf               : Nat → Option Nat
  nodeType               : Nat → Nat
  nodeIndex              : Nat → Nat
  offsetLeft             : Nat → Int
  offsetWidth            : Nat → Int
  scrollLeft             : Int
  treeHeight             : Nat

/-- Modelled from the spec: `Dom.upWhile(node, pred)` of the `dom`
module (not under `src/`), used by `parentBlock` to find "the nearest
non-editable parent" — it ascends through `parentNode` links while the
predicate holds.  Host DOM trees are finite, so the ascent is bounded by
the tree height, carried here as fuel. -/
def upWhile (parentOf : Nat → Option Nat) : Nat → (Nat → Bool) → Nat → Nat
  | 0, _, n => n
  | fuel + 1, pred, n =>
    if pred n then
      match parentOf n with
      | some p => upWhile parentOf fuel pred p
      | none => n
    else n

/-- `parentBlock(node)` from `ranges.js` lines 164-170: start from the
editing host when the node is editable, ascend while the parent exists
and is not editable, and return `null` when the node reached is the
document itself (`Dom.Nodes.DOCUMENT = 9`). -/
def parentBlock (doc : Doc) (node : Nat) : Option Nat :=
  let block := if doc.isEditable node then doc.editingHost node else node
  let parent := upWhile doc.parentOf doc.treeHeight
    (fun n =>
      match doc.parentOf n with
      | some p => !doc.isEditable p
      | none   => false)
    block
  if doc.nodeType parent = 9 then none else some parent

/-- `fromPoint(x, y, doc)` from `ranges.js` lines 54-70.  Negative
coordinates give `null`; otherwise the first available hit-testing
primitive is used, and with none available the call throws
(`Except.error`). -/
def fromPoint (x y : Int) (doc : Doc) : Except String (Option Range) :=
  if x < 0 ∨ y < 0 then
    .ok none
  else
    match doc.caretRangeFromPoint with
    | some f => .ok (f x y)
    | none =>
      match doc.caretPositionFromPoint with
      | some f =>
        let pos := f x y
        .ok (some (create pos.offsetNode (some pos.offset) none none))
      | none =>
        match doc.elementFromPoint with
        | some f => .ok (some (fromPointIE x y (f x y) doc.layout))
        | none => .error unimplementedMsg

/-- `fromPosition(x, y, doc)` from `ranges.js` lines 184-205.  A `null`
hit-test result is passed through; a range whose common ancestor is
editable is returned as-is; otherwise a collapsed range is built before
or after the nearest non-editable block, `null` when no such block with
a parent exists. -/
def fromPosition (x y : Int) (doc : Doc) : Except String (Option Range) :=
  match fromPoint x y doc with
  | .error e => .error e
  | .ok none => .ok none
  | .ok (some range) =>
    if doc.isEditableNode (doc.commonAncestorContainer range) then
      .ok (some range)
    else
      match parentBlock doc (doc.commonAncestorContainer range) with
      | none => .ok none
      | some block =>
        match doc.parentOf block with
        | none => .ok none
        | some blockParent =>
          let pointX := x + doc.scrollLeft
          let blockX := doc.offsetLeft block + doc.scrollLeft + doc.offsetWidth block
          let offset := (doc.nodeIndex block : Int) +
            (if pointX > blockX then 1 else 0)
          .ok (some (create blockParent (some offset) none none))

/-- A collapsed range: start and end boundary points coincide. -/
def Collapsed (r : Range) : Prop :=
  r.startContainer = r.endContainer ∧ r.startOffset = r.endOffset

instance (r : Range) : Decidable (Collapsed r) := by
  unfold Collapsed; infer_instance

/-- Whether the probe rectangle at text offset `o` exists and matches the
point — the stopping test of the `stepTextNode` scan. -/
def matchAt (rects : Nat → Option Rect) (x y : Int) (o : Nat) : Bool :=
  match rects o with
  | some rect => pointIsInOrAboveRect x y rect
  | none      => false

/-- The first offset in the scan order `offset, offset+1, …, len` whose
probe rectangle matches the point, `none` when no scanned offset
matches. -/
def firstMatch (len : Nat) (rects : Nat → Option Rect) (offset : Nat) (x y : Int) :
    Option Nat :=
  if matchAt rects x y offset then some offset
  else if offset < len then firstMatch len rects (offset + 1) x y
  else none
termination_by len - offset

/-- The index `stepTextNode` returns for a match at offset `o`: `o - 1`
when the point is strictly closer to the matched rectangle's left edge,
`o` otherwise. -/
def biasAdjust (rects : Nat → Option Rect) (x : Int) (o : Nat) : Int :=
  match rects o with
  | some rect => if rect.right - x > x - rect.left then (o : Int) - 1 else (o : Int)
  | none      => (o : Int)

/-- Fuel-indexed variant of `stepTextNode`, used to state termination:
it performs exactly the recursion of `stepTextNode` but gives up
(`none`) when the fuel runs out. -/
def stepTextNodeFuel (nodeId len : Nat) (rects : Nat → Option Rect)
    (x y : Int) : Nat → Nat → Option Position
  | 0, _ => none
  | fuel + 1, offset =>
    match rects offset with
    | some rect =>
      if pointIsInOrAboveRect x y rect then
        some { node := nodeId
               index := if rect.right - x > x - rect.left then (offset : Int) - 1
                        else (offset : Int) }
      else if offset < len then
        stepTextNodeFuel nodeId len rects x y fuel (offset + 1)
      else
        some { node := nodeId, index := (offset : Int) }
    | none =>
      if offset < len then
        stepTextNodeFuel nodeId len rects x y fuel (offset + 1)
      else
        some { node := nodeId, index := (offset : Int) }

/-- Fuel-indexed variant of `findOffset`, used to state termination of
the sibling-chain scan. -/
def findOffsetFuel (parent : Nat) (layout : Layout) (x y : Int) :
    Nat → NodeDesc → List NodeDesc → Nat → Option Position
  | 0, _, _, _ => none
  | fuel + 1, node, rest, idx =>
    match node.text with
    | some len =>
      some (stepTextNode node.id len (fun o => layout (.inText node.id o)) 0 x y)
    | none =>
      if afterMatches layout x y node then
        some { node := parent, index := (idx : Int) }
      else
        match rest with
        | next :: rest => findOffsetFuel parent layout x y fuel next rest (idx + 1)
        | [] => some { node := parent, index := (idx : Int) }

/-- A minimal concrete document with no hit-testing primitive at all. -/
def bareDoc : Doc where
  caretRangeFromPoint := none
  caretPositionFromPoint := none
  elementFromPoint := none
  layout := fun _ => none
  commonAncestorContainer := fun _ => 0
  isEditableNode := fun _ => false
  isEditable := fun _ => false
  editingHost := fun n => n
  parentOf := fun _ => none
  nodeType := fun _ => 1
  nodeIndex := fun _ => 0
  offsetLeft := fun _ => 0
  offsetWidth := fun _ => 0
  scrollLeft := 0
  treeHeight := 0

/-- A concrete document whose `caretRangeFromPoint` always yields the
collapsed range `(5, 2, 5, 2)` inside an editable ancestor. -/
def caretDoc : Doc where
  caretRangeFromPoint := some fun _ _ =>
    some { startContainer := 5, startOffset := 2, endContainer := 5, endOffset := 2 }
  caretPositionFromPoint := none
  elementFromPoint := none
  layout := fun _ => none
  commonAncestorContainer := fun _ => 5
  isEditableNode := fun _ => true
  isEditable := fun _ => false
  editingHost := fun n => n
  parentOf := fun _ => none
  nodeType := fun _ => 1
  nodeIndex := fun _ => 0
  offsetLeft := fun _ => 0
  offsetWidth := fun _ => 0
  scrollLeft := 0
  treeHeight := 0

/-- Concrete probe rectangles for a two-character text node: only offset
`1` renders a rectangle, spanning x from 0 to 10 with bottom 10. -/
def cexRects : Nat → Option Rect := fun o =>
  if o = 1 then some { left := 0, right := 10, bottom := 10 } else none

/-- Concrete layout rendering a single rectangle just after node `7`. -/
def layout0 : Layout := fun b =>
  match b with
  | .afterNode 7 => some { left := 0, right := 10, bottom := 10 }
  | _ => none

/-- Concrete layout rendering no rectangle at all. -/
def layoutNone : Layout := fun _ => none

/-! ## Helper lemmas -/

/-- Characterization of the `stepTextNode` scan: it stops at the first
scanned offset whose probe rectangle matches the point, returning that
offset bias-adjusted; with no match it returns the final offset reached
(`len`, or the starting offset when that already exceeds `len`). -/
theorem stepTextNode_spec (nodeId len : Nat) (rects : Nat → Option Rect)
    (offset : Nat) (x y : Int) :
    stepTextNode nodeId len rects offset x y =
      match firstMatch len rects offset x y with
      | some o => { node := nodeId, index := biasAdjust rects x o }
      | none   => { node := nodeId, index := ((max offset len : Nat) : Int) } := by
  generalize hn : len - offset = n
  induction n generalizing offset with
  | zero =>
    have hle : len ≤ offset := by omega
    have hm : max offset len = offset := by omega
    rw [stepTextNode, firstMatch]
    cases hro : rects offset with
    | some rect =>
      dsimp only
      by_cases hp : pointIsInOrAboveRect x y rect
      · simp only [hp, if_true, matchAt, hro, biasAdjust]
      · simp only [hp, if_false, Bool.false_eq_true, matchAt, hro,
          dif_neg (Nat.not_lt.mpr hle), if_neg (Nat.not_lt.mpr hle), hm]
    | none =>
      dsimp only
      simp only [matchAt, hro, Bool.false_eq_true, if_false,
        dif_neg (Nat.not_lt.mpr hle), if_neg (Nat.not_lt.mpr hle), hm]
  | succ n ih =>
    have hlt : offset < len := by omega
    have hm : max (offset + 1) len = max offset len := by omega
    have hrec := ih (offset + 1) (by omega)
    rw [stepTextNode, firstMatch]
    cases hro : rects offset with
    | some rect =>
      dsimp only
      by_cases hp : pointIsInOrAboveRect x y rect
      · simp only [hp, if_true, matchAt, hro, biasAdjust]
      · rw [if_neg hp, dif_pos hlt, hrec]
        have hma : matchAt rects x y offset = false := by
          simp [matchAt, hro, hp]
        rw [hma]
        simp only [Bool.false_eq_true, if_false, if_pos hlt]
        cases hfm : firstMatch len rects (offset + 1) x y with
        | some o => rfl
        | none => simp [hm]
    | none =>
      dsimp only
      rw [dif_pos hlt, hrec]
      have hma : matchAt rects x y offset = false := by
        simp [matchAt, hro]
      rw [hma]
      simp only [Bool.false_eq_true, if_false, if_pos hlt]
      cases hfm : firstMatch len rects (offset + 1) x y with
      | some o => rfl
      | none => simp [hm]

/-- Defining equation of `findOffset`, stated as one unconditional
unfolding lemma. -/
theorem findOffset_unfold (parent : Nat) (layout : Layout) (node : NodeDesc)
    (rest : List NodeDesc) (idx : Nat) (x y : Int) :
    findOffset parent layout node rest idx x y =
      match node.text with
      | some len =>
        stepTextNode node.id len (fun o => layout (.inText node.id o)) 0 x y
      | none =>
        if afterMatches layout x y node then
          { node := parent, index := (idx : Int) }
        else
          match rest with
          | next :: rest => findOffset parent layout next rest (idx + 1) x y
          | [] => { node := parent, index := (idx : Int) } := by
  obtain ⟨i, t⟩ := node
  cases t <;> cases rest <;> rfl

/-- When every sibling in the chain is a non-matching element, the
`findOffset` scan runs to the last sibling and returns its position. -/
theorem findOffset_no_stop (parent : Nat) (layout : Layout) (x y : Int) :
    ∀ (rest : List NodeDesc) (node : NodeDesc) (idx : Nat),
      (∀ m ∈ node :: rest, m.text = none ∧ afterMatches layout x y m = false) →
      findOffset parent layout node rest idx x y =
        { node := parent, index := ((idx + rest.length : Nat) : Int) } := by
  intro rest
  induction rest with
  | nil =>
    intro node idx h
    obtain ⟨ht, ha⟩ := h node (by simp)
    simp [findOffset, ht, ha]
  | cons next rest ih =>
    intro node idx h
    obtain ⟨ht, ha⟩ := h node (by simp)
    have hrec := ih next (idx + 1) (fun m hm => h m (by simp at hm ⊢; tauto))
    rw [findOffset]
    simp only [ht, ha, Bool.false_eq_true, if_false, hrec, List.length_cons]
    congr 1
    omega

/-- When the chain decomposes as `pre ++ nd :: post` with every node of
`pre` a non-matching element, the `findOffset` scan reaches `nd`: a text
node is delegated to `stepTextNode` from offset `0`, and a matching
element yields the position of `nd` in the parent. -/
theorem findOffset_first_stop (parent : Nat) (layout : Layout) (x y : Int)
    (nd : NodeDesc) (post : List NodeDesc) :
    ∀ (pre : List NodeDesc) (node : NodeDesc) (rest : List NodeDesc) (idx : Nat),
      node :: rest = pre ++ nd :: post →
      (∀ m ∈ pre, m.text = none ∧ afterMatches layout x y m = false) →
      (∀ len, nd.text = some len →
        findOffset parent layout node rest idx x y =
          stepTextNode nd.id len (fun o => layout (.inText nd.id o)) 0 x y) ∧
      (nd.text = none → afterMatches layout x y nd = true →
        findOffset parent layout node rest idx x y =
          { node := parent, index := ((idx + pre.length : Nat) : Int) }) := by
  intro pre
  induction pre with
  | nil =>
    intro node rest idx hchain _
    simp only [List.nil_append] at hchain
    obtain ⟨rfl, rfl⟩ := List.cons_eq_cons.mp hchain
    constructor
    · intro len hlen
      rw [findOffset_unfold, hlen]
    · intro ht ha
      rw [findOffset_unfold, ht]
      simp [ha]
  | cons m pre ih =>
    intro node rest idx hchain hpre
    simp only [List.cons_append] at hchain
    obtain ⟨rfl, hrest⟩ := List.cons_eq_cons.mp hchain
    obtain ⟨htm, ham⟩ := hpre node (by simp)
    have hpre' : ∀ m' ∈ pre, m'.text = none ∧ afterMatches layout x y m' = false :=
      fun m' hm' => hpre m' (by simp [hm'])
    have hstep : ∀ next rest2, rest = next :: rest2 →
        findOffset parent layout node rest idx x y =
          findOffset parent layout next rest2 (idx + 1) x y := by
      intro next rest2 hr
      subst hr
      rw [findOffset_unfold, htm]
      simp [ham]
    cases hr : pre ++ nd :: post with
    | nil => simp at hr
    | cons next rest2 =>
      have hrest2 : rest = next :: rest2 := hrest.trans hr
      have hih := ih next rest2 (idx + 1) hr.symm hpre'
      rw [hstep next rest2 hrest2]
      constructor
      · intro len hlen
        exact hih.1 len hlen
      · intro ht ha
        rw [hih.2 ht ha]
        congr 1
        simp
        omega

/-- The fuel-indexed text-node scan computes `stepTextNode` whenever the
fuel exceeds the number of offsets left to scan. -/
theorem stepTextNodeFuel_eq (nodeId len : Nat) (rects : Nat → Option Rect)
    (x y : Int) :
    ∀ (n offset : Nat), len - offset < n →
      stepTextNodeFuel nodeId len rects x y n offset =
        some (stepTextNode nodeId len rects offset x y) := by
  intro n
  induction n with
  | zero => intro offset h; omega
  | succ n ih =>
    intro offset h
    rw [stepTextNode, stepTextNodeFuel]
    cases hro : rects offset with
    | some rect =>
      dsimp only
      by_cases hp : pointIsInOrAboveRect x y rect
      · simp [hp]
      · by_cases hlt : offset < len
        · simp only [hp, Bool.false_eq_true, if_false, if_pos hlt, dif_pos hlt]
          exact ih (offset + 1) (by omega)
        · simp only [hp, Bool.false_eq_true, if_false, if_neg hlt, dif_neg hlt]
    | none =>
      dsimp only
      by_cases hlt : offset < len
      · simp only [if_pos hlt, dif_pos hlt]
        exact ih (offset + 1) (by omega)
      · simp only [if_neg hlt, dif_neg hlt]

/-- The fuel-indexed sibling scan computes `findOffset` whenever the
fuel exceeds the length of the remaining sibling chain. -/
theorem findOffsetFuel_eq (parent : Nat) (layout : Layout) (x y : Int) :
    ∀ (rest : List NodeDesc) (node : NodeDesc) (idx fuel : Nat),
      rest.length < fuel →
      findOffsetFuel parent layout x y fuel node rest idx =
        some (findOffset parent layout node rest idx x y) := by
  intro rest
  induction rest with
  | nil =>
    intro node idx fuel h
    match fuel, h with
    | fuel + 1, _ =>
      rw [findOffsetFuel, findOffset]
      cases ht : node.text with
      | some len => rfl
      | none =>
        by_cases ha : afterMatches layout x y node
        · simp [ha]
        · simp [ha]
  | cons next rest ih =>
    intro node idx fuel h
    match fuel, h with
    | fuel + 1, h =>
      rw [findOffsetFuel, findOffset]
      cases ht : node.text with
      | some len => rfl
      | none =>
        by_cases ha : afterMatches layout x y node
        · simp [ha]
        · simp only [ha, Bool.false_eq_true, if_false]
          exact ih next (idx + 1) fuel (by simpa using h)

/-- `create` with no end container always builds a collapsed range. -/
theorem create_none_collapsed (sc : Nat) (so eo : Option Int) :
    Collapsed (create sc so none eo) :=
  ⟨rfl, rfl⟩

/-- The IE fallback always builds its result with `create` from a single
position, hence collapsed. -/
theorem fromPointIE_collapsed (x y : Int) (el : ElementInfo) (layout : Layout) :
    Collapsed (fromPointIE x y el layout) := by
  rw [fromPointIE]
  cases el.children with
  | nil => exact create_none_collapsed _ _ _
  | cons c rest => exact create_none_collapsed _ _ _

/-- Every range produced by `fromPoint` is collapsed, provided the host
`caretRangeFromPoint` primitive only produces collapsed ranges. -/
theorem fromPoint_ok_collapsed (doc : Doc)
    (hhost : ∀ f x y r, doc.caretRangeFromPoint = some f → f x y = some r →
      Collapsed r)
    (x y : Int) (r : Range) (h : fromPoint x y doc = .ok (some r)) :
    Collapsed r := by
  unfold fromPoint at h
  by_cases hneg : x < 0 ∨ y < 0
  · rw [if_pos hneg] at h
    simp at h
  · rw [if_neg hneg] at h
    cases hcr : doc.caretRangeFromPoint with
    | some f =>
      rw [hcr] at h
      simp only [Except.ok.injEq] at h
      exact hhost f x y r hcr h
    | none =>
      rw [hcr] at h
      cases hcp : doc.caretPositionFromPoint with
      | some f =>
        rw [hcp] at h
        simp only [Except.ok.injEq, Option.some.injEq] at h
        exact h ▸ create_none_collapsed _ _ _
      | none =>
        rw [hcp] at h
        cases hef : doc.elementFromPoint with
        | some f =>
          rw [hef] at h
          simp only [Except.ok.injEq, Option.some.injEq] at h
          exact h ▸ fromPointIE_collapsed _ _ _ _
        | none =>
          rw [hef] at h
          simp at h

/-! ## Claim theorems -/

/-- C1: for every document and all coordinates with `x < 0` or `y < 0`,
`fromPosition(x, y, doc)` returns null. -/
theorem fromPosition_neg_coords_null (x y : Int) (doc : Doc) (h : x < 0 ∨ y < 0) :
    fromPosition x y doc = .ok none := by
  have hfp : fromPoint x y doc = .ok none := by
    unfold fromPoint
    rw [if_pos h]
  unfold fromPosition
  rw [hfp]

/-- Witness for C1 at the concrete input `(-1, 5)`. -/
theorem fromPosition_neg_coords_null_witness :
    ((-1 : Int) < 0 ∨ (5 : Int) < 0) ∧ fromPosition (-1) 5 bareDoc = .ok none :=
  ⟨Or.inl (by decide), fromPosition_neg_coords_null (-1) 5 bareDoc (Or.inl (by decide))⟩

/-- C2: `equals(a, b)` is true iff the four boundary fields of `a` and
`b` agree (containers by identity, offsets by value); any differing
field therefore makes it false. -/
theorem equals_true_iff_fields (a b : Range) :
    equals a b = true ↔
      (a.startContainer = b.startContainer ∧ a.startOffset = b.startOffset ∧
       a.endContainer = b.endContainer ∧ a.endOffset = b.endOffset) := by
  simp [equals, and_assoc]

/-- C3: `equals(r, r)` is true for every range `r` (reflexivity). -/
theorem equals_self (r : Range) : equals r r = true := by
  simp [equals]

/-- C4: `create(n, 3)` with no end-container and no end-offset arguments
returns the collapsed range `(n, 3, n, 3)`. -/
theorem create_no_end_args_collapsed (n : Nat) :
    create n (some 3) none none =
      { startContainer := n, startOffset := 3, endContainer := n, endOffset := 3 } :=
  rfl

/-- C5 (counterexample): on the concrete layout `cexRects` at point
`(2, 5)` the scan over a two-character text node first matches at offset
`1`, yet `stepTextNode` returns index `0` — a position that is not the
first matching position of the scan (its own rectangle does not match). -/
theorem scan_first_match_cex :
    stepTextNode 0 2 cexRects 0 2 5 = { node := 0, index := 0 } ∧
    matchAt cexRects 2 5 0 = false ∧
    matchAt cexRects 2 5 1 = true := by
  have hm0 : matchAt cexRects 2 5 0 = false := by
    norm_num [matchAt, cexRects]
  have hm1 : matchAt cexRects 2 5 1 = true := by
    norm_num [matchAt, cexRects, pointIsInOrAboveRect]
  have hfm : firstMatch 2 cexRects 0 2 5 = some 1 := by
    rw [firstMatch, hm0]
    norm_num
    rw [firstMatch, hm1]
    simp
  refine ⟨?_, hm0, hm1⟩
  rw [stepTextNode_spec, hfm]
  norm_num [biasAdjust, cexRects]

/-- C5 (amended): the fallback hit-test scans by extending the probe
range's end one unit at a time; it stops at the first scanned position
whose rectangle contains or lies above the point, and the returned index
is that position's offset — decremented by one, for a text node, when
the point is strictly closer to the matched rectangle's left edge — or
the final position reached when no rectangle matches. -/
theorem fallback_scan_first_match :
    (∀ (nodeId len : Nat) (rects : Nat → Option Rect) (offset : Nat) (x y : Int),
      stepTextNode nodeId len rects offset x y =
        match firstMatch len rects offset x y with
        | some o => { node := nodeId, index := biasAdjust rects x o }
        | none   => { node := nodeId, index := ((max offset len : Nat) : Int) }) ∧
    (∀ (parent : Nat) (layout : Layout) (x y : Int) (nd : NodeDesc)
        (post pre : List NodeDesc) (node : NodeDesc) (rest : List NodeDesc) (idx : Nat),
      node :: rest = pre ++ nd :: post →
      (∀ m ∈ pre, m.text = none ∧ afterMatches layout x y m = false) →
      (∀ len, nd.text = some len →
        findOffset parent layout node rest idx x y =
          stepTextNode nd.id len (fun o => layout (.inText nd.id o)) 0 x y) ∧
      (nd.text = none → afterMatches layout x y nd = true →
        findOffset parent layout node rest idx x y =
          { node := parent, index := ((idx + pre.length : Nat) : Int) })) ∧
    (∀ (parent : Nat) (layout : Layout) (x y : Int) (node : NodeDesc)
        (rest : List NodeDesc) (idx : Nat),
      (∀ m ∈ node :: rest, m.text = none ∧ afterMatches layout x y m = false) →
      findOffset parent layout node rest idx x y =
        { node := parent, index := ((idx + rest.length : Nat) : Int) }) :=
  ⟨fun nodeId len rects offset x y => stepTextNode_spec nodeId len rects offset x y,
    fun parent layout x y nd post pre node rest idx hchain hpre =>
      findOffset_first_stop parent layout x y nd post pre node rest idx hchain hpre,
    fun parent layout x y node rest idx h =>
      findOffset_no_stop parent layout x y rest node idx h⟩

/-- Witness for C5 (amended) at concrete inputs: the text-node scan on
`cexRects` starting at its matching offset, an element sibling whose
after-rectangle matches immediately, and a two-element chain with no
rectangles that runs to its last sibling. -/
theorem fallback_scan_first_match_witness :
    stepTextNode 0 2 cexRects 1 2 5 = { node := 0, index := 0 } ∧
    findOffset 9 layout0 ⟨7, none⟩ [] 4 2 5 = { node := 9, index := 4 } ∧
    findOffset 9 layoutNone ⟨3, none⟩ [⟨4, none⟩] 0 2 5 = { node := 9, index := 1 } := by
  refine ⟨?_, ?_, ?_⟩
  · have h := fallback_scan_first_match.1 0 2 cexRects 1 2 5
    rw [h]
    have hm1 : matchAt cexRects 2 5 1 = true := by
      norm_num [matchAt, cexRects, pointIsInOrAboveRect]
    rw [firstMatch, hm1]
    norm_num [biasAdjust, cexRects]
  · have hafter : afterMatches layout0 2 5 ⟨7, none⟩ = true := by
      simp [afterMatches, layout0, pointIsInOrAboveRect]
    have h := (fallback_scan_first_match.2.1 9 layout0 2 5 ⟨7, none⟩ [] [] ⟨7, none⟩ [] 4
      rfl (by simp)).2 rfl hafter
    simpa using h
  · have hall : ∀ m ∈ [(⟨3, none⟩ : NodeDesc), ⟨4, none⟩],
        m.text = none ∧ afterMatches layoutNone 2 5 m = false := by
      intro m hm
      simp only [List.mem_cons, List.mem_singleton] at hm
      rcases hm with rfl | rfl | hm
      · exact ⟨rfl, by simp [afterMatches, layoutNone]⟩
      · exact ⟨rfl, by simp [afterMatches, layoutNone]⟩
      · simp at hm
    have h := fallback_scan_first_match.2.2 9 layoutNone 2 5 ⟨3, none⟩ [⟨4, none⟩] 0 hall
    simpa using h

/-- C6: when the text-node scan stops at a matching offset `o` whose
rectangle is `rect`, the returned index is `o` when the point is at
least as close to the rectangle's right edge as to its left edge, and
`o - 1` otherwise. -/
theorem stepTextNode_nearest_edge (nodeId len : Nat) (rects : Nat → Option Rect)
    (offset o : Nat) (x y : Int) (rect : Rect)
    (hfm : firstMatch len rects offset x y = some o)
    (hro : rects o = some rect) :
    stepTextNode nodeId len rects offset x y =
      { node := nodeId
        index := if rect.right - x > x - rect.left then (o : Int) - 1 else (o : Int) } := by
  rw [stepTextNode_spec, hfm]
  dsimp only
  simp [biasAdjust, hro]

/-- Witness for C6 on the concrete two-character layout `cexRects` at
point `(2, 5)`: the scan matches at offset `1` and returns index `0`
because the point is closer to the left edge. -/
theorem stepTextNode_nearest_edge_witness :
    firstMatch 2 cexRects 0 2 5 = some 1 ∧
    cexRects 1 = some { left := 0, right := 10, bottom := 10 } ∧
    stepTextNode 0 2 cexRects 0 2 5 = { node := 0, index := 0 } := by
  have hm0 : matchAt cexRects 2 5 0 = false := by
    norm_num [matchAt, cexRects]
  have hm1 : matchAt cexRects 2 5 1 = true := by
    norm_num [matchAt, cexRects, pointIsInOrAboveRect]
  have hfm : firstMatch 2 cexRects 0 2 5 = some 1 := by
    rw [firstMatch, hm0]
    norm_num
    rw [firstMatch, hm1]
    simp
  refine ⟨hfm, rfl, ?_⟩
  have h := stepTextNode_nearest_edge 0 2 cexRects 0 1 2 5 ⟨0, 10, 10⟩ hfm rfl
  simpa using h

/-- C7: with none of the three hit-testing primitives available and
non-negative coordinates, `fromPoint` (and hence `fromPosition`) fails
with the unrecoverable unsupported-environment error rather than
returning a value. -/
theorem fromPoint_unsupported_throws (x y : Int) (doc : Doc)
    (hx : 0 ≤ x) (hy : 0 ≤ y)
    (h1 : doc.caretRangeFromPoint = none)
    (h2 : doc.caretPositionFromPoint = none)
    (h3 : doc.elementFromPoint = none) :
    fromPoint x y doc = .error unimplementedMsg ∧
    fromPosition x y doc = .error unimplementedMsg := by
  have hfp : fromPoint x y doc = .error unimplementedMsg := by
    unfold fromPoint
    rw [if_neg (by omega), h1, h2, h3]
  exact ⟨hfp, by unfold fromPosition; rw [hfp]⟩

/-- Witness for C7 at the concrete input `(0, 0)` on a document with no
hit-testing primitive. -/
theorem fromPoint_unsupported_throws_witness :
    fromPoint 0 0 bareDoc = .error unimplementedMsg ∧
    fromPosition 0 0 bareDoc = .error unimplementedMsg :=
  fromPoint_unsupported_throws 0 0 bareDoc (by decide) (by decide) rfl rfl rfl

/-- C8: the three public operations are deterministic — with the
document state and layout fixed as an explicit `Doc` value, two calls
with the same arguments return the same result, and the embedding
carries no hidden mutable state. -/
theorem public_ops_deterministic :
    (∀ (sc : Nat) (so : Option Int) (ec : Option Nat) (eo : Option Int),
      create sc so ec eo = create sc so ec eo) ∧
    (∀ (x y : Int) (doc : Doc), fromPosition x y doc = fromPosition x y doc) ∧
    (∀ a b : Range, equals a b = equals a b) :=
  ⟨fun _ _ _ _ => rfl, fun _ _ _ => rfl, fun _ _ => rfl⟩

/-- C9: both fallback scans terminate — the fuel-indexed variants
succeed with fuel `len - offset + 1` for the text-node scan (offset at
most `len`) and fuel `|rest| + 1` for the sibling scan. -/
theorem fallback_scans_terminate :
    (∀ (nodeId len : Nat) (rects : Nat → Option Rect) (x y : Int) (offset : Nat),
      offset ≤ len →
      stepTextNodeFuel nodeId len rects x y (len - offset + 1) offset =
        some (stepTextNode nodeId len rects offset x y)) ∧
    (∀ (parent : Nat) (layout : Layout) (x y : Int) (node : NodeDesc)
      (rest : List NodeDesc) (idx : Nat),
      findOffsetFuel parent layout x y (rest.length + 1) node rest idx =
        some (findOffset parent layout node rest idx x y)) :=
  ⟨fun nodeId len rects x y offset _ =>
      stepTextNodeFuel_eq nodeId len rects x y (len - offset + 1) offset (by omega),
    fun parent layout x y node rest idx =>
      findOffsetFuel_eq parent layout x y rest node idx (rest.length + 1) (by omega)⟩

/-- Witness for C9 at concrete inputs: the two-character text node of
`cexRects` scanned from offset `0`, and a one-element sibling chain with
no rendered rectangles. -/
theorem fallback_scans_terminate_witness :
    (0 : Nat) ≤ 2 ∧
    stepTextNodeFuel 0 2 cexRects 2 5 (2 - 0 + 1) 0 =
      some (stepTextNode 0 2 cexRects 0 2 5) ∧
    findOffsetFuel 9 layoutNone 2 5 (([] : List NodeDesc).length + 1) ⟨3, none⟩ [] 0 =
      some (findOffset 9 layoutNone ⟨3, none⟩ [] 0 2 5) :=
  ⟨by decide, fallback_scans_terminate.1 0 2 cexRects 2 5 0 (by decide),
    fallback_scans_terminate.2 9 layoutNone 2 5 ⟨3, none⟩ [] 0⟩

/-- C10: under the host guarantee that `caretRangeFromPoint` only
produces collapsed caret ranges, every non-null range `fromPosition`
returns is collapsed, on every return path. -/
theorem fromPosition_result_collapsed (doc : Doc)
    (hhost : ∀ f x y r, doc.caretRangeFromPoint = some f → f x y = some r →
      Collapsed r)
    (x y : Int) (r : Range) (h : fromPosition x y doc = .ok (some r)) :
    Collapsed r := by
  unfold fromPosition at h
  cases hfp : fromPoint x y doc with
  | error e => rw [hfp] at h; simp at h
  | ok ro =>
    rw [hfp] at h
    cases ro with
    | none => simp at h
    | some rg =>
      dsimp only at h
      by_cases hed : doc.isEditableNode (doc.commonAncestorContainer rg)
      · rw [if_pos hed] at h
        simp only [Except.ok.injEq, Option.some.injEq] at h
        exact h ▸ fromPoint_ok_collapsed doc hhost x y rg hfp
      · rw [if_neg hed] at h
        cases hpb : parentBlock doc (doc.commonAncestorContainer rg) with
        | none => rw [hpb] at h; simp at h
        | some block =>
          rw [hpb] at h
          dsimp only at h
          cases hpar : doc.parentOf block with
          | none => rw [hpar] at h; simp at h
          | some bp =>
            rw [hpar] at h
            simp only [Except.ok.injEq, Option.some.injEq] at h
            exact h ▸ create_none_collapsed _ _ _

/-- Witness for C10 on a concrete document whose caret hit-test always
returns the collapsed range `(5, 2, 5, 2)` inside an editable. -/
theorem fromPosition_result_collapsed_witness :
    fromPosition 1 1 caretDoc =
      .ok (some { startContainer := 5, startOffset := 2, endContainer := 5, endOffset := 2 }) ∧
    Collapsed { startContainer := 5, startOffset := 2, endContainer := 5, endOffset := 2 } := by
  refine ⟨rfl, ?_⟩
  refine fromPosition_result_collapsed caretDoc ?_ 1 1 _ rfl
  intro f x y r hf hr
  rw [show caretDoc.caretRangeFromPoint =
    some (fun _ _ => some { startContainer := 5, startOffset := 2
                            endContainer := 5, endOffset := 2 }) from rfl] at hf
  cases Option.some.inj hf
  cases Option.some.inj hr
  exact ⟨rfl, rfl⟩

end Ranges
